import Mathlib

/-!
# Verification of the ark-os-noa pipeline core

A shallow embedding of the job / pipeline core of the `FlexNetOS/ark-os-noa`
repository, together with proofs of its specified properties.

* `Job`, `Job.create`, `Job.record_step` embed `job.py`.
* The filesystem is modelled explicitly as a value of type `FS` threaded
  through the operations: directories are lists of path components, files are
  an association log (most recent write first), and an `allowed` predicate
  models operating-system permission to create an entry at a given path.
* The stage processors of the service modules (`services/*/main.py`) are
  embedded as functions on a dict-shaped job.
* The agent registry of `coding_agents/base_agent.py` is embedded as an
  association list keyed by agent name.
* `run_pipeline` (module `pipeline`, imported by `tests/test_pipeline.py` but
  not present in the sources) is modelled from the spec.
-/

/-- A filesystem path, as its list of components. -/
abbrev FsPath := List String

/-- Operating-system errors that directory creation can raise
(Python `FileExistsError`, `FileNotFoundError`, `PermissionError`,
all subclasses of `OSError`). -/
inductive OSError where
  | fileExists
  | missingParent
  | permissionDenied
  deriving Repr, DecidableEq

/-- The filesystem state threaded through the embedded operations.
`files` is a write log: the most recent write to a path appears first and
shadows older entries.  `allowed p` models whether the operating system
permits creating an entry at path `p` (permissions, disk space). -/
structure FS where
  dirs : List FsPath
  files : List (FsPath × String)
  allowed : FsPath → Bool

/-- A directory exists; the empty path (the process working directory /
filesystem root) always exists. -/
def FS.dirExists (fs : FS) (p : FsPath) : Bool :=
  p.isEmpty || fs.dirs.contains p

/-- Create each of the given directories in turn, skipping those that
already exist, failing when the operating system refuses a creation. -/
def FS.mkdirList (fs : FS) (qs : List FsPath) : Except OSError FS :=
  match qs with
  | [] => .ok fs
  | q :: rest =>
    if fs.dirExists q then fs.mkdirList rest
    else if fs.allowed q then FS.mkdirList { fs with dirs := q :: fs.dirs } rest
    else .error .permissionDenied

/-- The non-empty prefixes of a path, shortest first. -/
def FsPath.prefixes (p : FsPath) : List FsPath :=
  (List.range p.length).map (fun i => p.take (i + 1))

/-- Python `path.mkdir(parents=True, exist_ok=True)`: create the directory
and any missing ancestors, succeeding when it already exists. -/
def FS.mkdirParents (fs : FS) (p : FsPath) : Except OSError FS :=
  fs.mkdirList (FsPath.prefixes p)

/-- Python `path.mkdir()` (no flags): fail if the directory already exists,
if its parent is missing, or if the operating system refuses the creation. -/
def FS.mkdir (fs : FS) (p : FsPath) : Except OSError FS :=
  if fs.dirs.contains p then .error .fileExists
  else if !fs.dirExists p.dropLast then .error .missingParent
  else if fs.allowed p then .ok { fs with dirs := p :: fs.dirs }
  else .error .permissionDenied

/-- Python `path.write_text(content)`: record the write at the head of the
file log (the most recent write shadows older ones). -/
def FS.writeText (fs : FS) (p : FsPath) (content : String) : FS :=
  { fs with files := (p, content) :: fs.files }

/-- Python `path.read_text()` on an existing file: the most recent write. -/
def FS.readText (fs : FS) (p : FsPath) : Option String :=
  (fs.files.find? (fun e => e.1 == p)).map (·.2)

/-- A filesystem is well formed when every file lives in an existing
directory (true of every real filesystem state). -/
def FS.WF (fs : FS) : Prop :=
  ∀ e ∈ fs.files, e.1.dropLast ∈ fs.dirs

/-- From `job.py`: `Job` — simple job container passed between pipeline services. -/
structure Job (α : Type) where
  data : α
  workspace : FsPath
  steps : List String
  deriving Repr

/-- From `job.py`: `Job.create` — create a job with a unique workspace
directory.  `hex` stands for the random draw `uuid.uuid4().hex` of this
invocation; the filesystem is passed and returned explicitly. -/
def Job.create (data : α) (base_dir : Option FsPath) (hex : String) (fs : FS) :
    Except OSError (Job α × FS) := do
  let base := base_dir.getD ["workspaces"]
  let fs1 ← fs.mkdirParents base
  let workspace := base ++ ["job-" ++ hex]
  let fs2 ← fs1.mkdir workspace
  .ok ({ data := data, workspace := workspace, steps := [] }, fs2)

/-- From `job.py`: `Job.record_step` — append a step name to the trace and
create a marker file `<name>.txt` containing the name. -/
def Job.record_step (job : Job α) (fs : FS) (name : String) : Job α × FS :=
  ({ job with steps := job.steps ++ [name] },
   fs.writeText (job.workspace ++ [name ++ ".txt"]) name)

/-- The path of the marker file `record_step name` writes in workspace `ws`. -/
def markerPath (ws : FsPath) (name : String) : FsPath :=
  ws ++ [name ++ ".txt"]

/-- A sequence of `record_step` calls on a job, in order. -/
def runSteps (job : Job α) (fs : FS) (names : List String) : Job α × FS :=
  names.foldl (fun jf n => jf.1.record_step jf.2 n) (job, fs)

/-- Modelled from the spec: a stage processor takes the current job (with the
filesystem state) and either returns the job to carry forward or fails
(`StageFailure`, carried as an opaque message).  The `pipeline` module that
defines the runner is imported by the tests but missing from the sources. -/
def StageProc (α : Type) : Type :=
  Job α → FS → Except String (Job α × FS)

/-- Outcome of a pipeline run.  A failure carries the job and filesystem
state at the moment of failure: the spec makes the partial `steps` trace and
the on-disk markers the caller's diagnostic artifacts. -/
inductive RunResult (α : Type) where
  | ok : Job α → FS → RunResult α
  | createError : OSError → RunResult α
  | stageError : String → Job α → FS → RunResult α

/-- Modelled from the spec: the runner is a strict linear fold over the
configured `(stage_name, stage_processor)` list, replacing the working job
with each processor's return value and propagating the first failure
immediately, without catching it. -/
def runStages (stages : List (String × StageProc α)) (job : Job α) (fs : FS) :
    RunResult α :=
  match stages with
  | [] => .ok job fs
  | (_, proc) :: rest =>
    match proc job fs with
    | .error e => .stageError e job fs
    | .ok (job', fs') => runStages rest job' fs'

/-- Modelled from the spec: `run_pipeline(payload, base_directory?)`
(module `pipeline`, missing from the sources) constructs a Job from the
payload, then invokes each configured stage processor in declared order.
`hex` stands for the `uuid.uuid4().hex` draw of the job creation. -/
def run_pipeline (stages : List (String × StageProc α)) (payload : α)
    (base_dir : Option FsPath) (hex : String) (fs : FS) : RunResult α :=
  match Job.create payload base_dir hex fs with
  | .error e => .createError e
  | .ok (job, fs1) => runStages stages job fs1

/-- Modelled from the spec: the canonical stage processor of stage `name`
records the stage on the job via `record_step` and never fails. -/
def recordingStage (name : String) : StageProc α :=
  fun job fs => .ok (job.record_step fs name)

/-- The configuration pairing each name with its recording processor. -/
def recordingStages (names : List String) : List (String × StageProc α) :=
  names.map (fun n => (n, recordingStage n))

/-- The canonical stage-name sequence of the default pipeline. -/
def canonicalStageNames : List String :=
  ["intake", "classifier", "graph_extract", "embeddings", "env_synthesis",
   "safety", "runner", "integrator", "registrar"]

/-- The canonical 9-stage configuration. -/
def canonicalStages (α : Type) : List (String × StageProc α) :=
  recordingStages canonicalStageNames

/-- A stage processor that fails on invocation (the spec's `StageFailure`
scenario: e.g. a simulated I/O error), before any side effect. -/
def failingStage (msg : String) : StageProc α :=
  fun _ _ => .error msg

/-- The canonical configuration with the stage at position `i` (0-based)
replaced by a processor that fails on invocation. -/
def stagesFailingAt (α : Type) (i : Nat) (msg : String) :
    List (String × StageProc α) :=
  recordingStages (canonicalStageNames.take i)
    ++ (canonicalStageNames.getD i "", failingStage msg)
      :: recordingStages (canonicalStageNames.drop (i + 1))

/-- The dict-shaped job the generated services pass around
(`job: Dict[str, Any]`): the keys the service processors touch, each
possibly absent as `setdefault` expects. -/
structure DictJob (α : Type) where
  data : Option α
  steps : Option (List String)
  processed_by : Option (List String)
  deriving Repr

/-- Python `job.setdefault(key, []).append(x)` on a modelled optional key. -/
def setdefaultAppend (field : Option (List String)) (x : String) :
    Option (List String) :=
  some (field.getD [] ++ [x])

namespace graph_extract

/-- Effective `process` of `services/graph_extract/main.py`: the module
defines `process` twice and the later, dict-shaped definition shadows the
earlier one. -/
def process (job : DictJob α) : DictJob α :=
  { job with steps := setdefaultAppend job.steps "graph_extract" }

end graph_extract

namespace env_synthesis

/-- Effective `process` of `services/env_synthesis/main.py` (the later of
the two `process` definitions in the module shadows the earlier one). -/
def process (job : DictJob α) : DictJob α :=
  { job with steps := setdefaultAppend job.steps "env_synthesis" }

end env_synthesis

namespace model_selector

/-- Function `process` of `services/model_selector/main.py`. -/
def process (job : DictJob α) : DictJob α :=
  { job with steps := setdefaultAppend job.steps "model_selector",
             processed_by := setdefaultAppend job.processed_by "model_selector" }

end model_selector

namespace test_service

/-- Function `process` of `services/test-service/main.py` (directory name
`test-service`; hyphens are not valid in Lean namespaces). -/
def process (job : DictJob α) : DictJob α :=
  { job with steps := setdefaultAppend job.steps "test-service",
             processed_by := setdefaultAppend job.processed_by "test-service" }

end test_service

/-- From `coding_agents/base_agent.py`: `BaseAgent` — an agent has a name and an
abstract `execute` taking keyword arguments (`κ`) to a result (`ρ`). -/
structure BaseAgent (κ ρ : Type) where
  name : String
  execute : κ → ρ

/-- From `coding_agents/base_agent.py`: `AgentRegistry` — the `_agents` dict,
as an association list in insertion order. -/
structure AgentRegistry (κ ρ : Type) where
  agents : List (String × BaseAgent κ ρ)

/-- Method `AgentRegistry.register`: Python dict assignment `_agents[name] = agent`
(overwrites in place, appends when the name is new). -/
def AgentRegistry.register (r : AgentRegistry κ ρ) (a : BaseAgent κ ρ) :
    AgentRegistry κ ρ :=
  if r.agents.any (fun p => p.1 == a.name) then
    { agents := r.agents.map (fun p => if p.1 == a.name then (a.name, a) else p) }
  else
    { agents := r.agents ++ [(a.name, a)] }

/-- Method `AgentRegistry.get_agent`: `self._agents.get(name)`. -/
def AgentRegistry.get_agent (r : AgentRegistry κ ρ) (name : String) :
    Option (BaseAgent κ ρ) :=
  (r.agents.find? (fun p => p.1 == name)).map (·.2)

/-- Method `AgentRegistry.list_agents`: `list(self._agents.keys())`. -/
def AgentRegistry.list_agents (r : AgentRegistry κ ρ) : List String :=
  r.agents.map (·.1)

/-- Method `AgentRegistry.execute_agent`: raises
`ValueError(f"Agent '\x7bname\x7d' not found")` when the lookup fails,
otherwise runs the registered agent's `execute`. -/
def AgentRegistry.execute_agent (r : AgentRegistry κ ρ) (name : String)
    (kwargs : κ) : Except String ρ :=
  match r.get_agent name with
  | none => .error ("Agent not found: " ++ name)
  | some a => .ok (a.execute kwargs)

/-! ## Helper lemmas -/

theorem readText_writeText_self (fs : FS) (p : FsPath) (c : String) :
    (fs.writeText p c).readText p = some c := by
  simp [FS.readText, FS.writeText, List.find?]

theorem readText_writeText_ne (fs : FS) (p q : FsPath) (c : String) (h : q ≠ p) :
    (fs.writeText q c).readText p = fs.readText p := by
  have hb : (q == p) = false := by simpa using h
  simp [FS.readText, FS.writeText, List.find?, hb]

theorem markerPath_inj (ws : FsPath) (a b : String)
    (h : markerPath ws a = markerPath ws b) : a = b := by
  have h1 : a ++ ".txt" = b ++ ".txt" := by
    have h2 := h
    simp only [markerPath, List.append_cancel_left_eq, List.cons.injEq,
      and_true] at h2
    exact h2
  have hd : (a ++ ".txt").data = (b ++ ".txt").data := by rw [h1]
  rw [String.data_append, String.data_append] at hd
  exact String.ext (List.append_cancel_right hd)

theorem record_step_fst (job : Job α) (fs : FS) (name : String) :
    (job.record_step fs name).1 = { job with steps := job.steps ++ [name] } := rfl

theorem record_step_snd (job : Job α) (fs : FS) (name : String) :
    (job.record_step fs name).2 =
      fs.writeText (markerPath job.workspace name) name := rfl

theorem runSteps_cons (job : Job α) (fs : FS) (n : String) (names : List String) :
    runSteps job fs (n :: names) =
      runSteps (job.record_step fs n).1 (job.record_step fs n).2 names := rfl

theorem runSteps_fst (names : List String) :
    ∀ (job : Job α) (fs : FS),
      (runSteps job fs names).1 = { job with steps := job.steps ++ names } := by
  induction names with
  | nil => intro job fs; simp [runSteps]
  | cons n rest ih =>
    intro job fs
    rw [runSteps_cons, ih]
    simp [Job.record_step]

theorem runSteps_markers (names : List String) :
    ∀ (job : Job α) (fs : FS),
      (∀ n ∈ job.steps, fs.readText (markerPath job.workspace n) = some n) →
      ∀ n ∈ (runSteps job fs names).1.steps,
        (runSteps job fs names).2.readText
          (markerPath (runSteps job fs names).1.workspace n) = some n := by
  induction names with
  | nil => intro job fs h; simpa [runSteps] using h
  | cons m rest ih =>
    intro job fs h
    rw [runSteps_cons]
    apply ih
    intro n hn
    have hn2 : n ∈ job.steps ++ [m] := by simpa [Job.record_step] using hn
    show (job.record_step fs m).2.readText
        (markerPath (job.record_step fs m).1.workspace n) = some n
    rw [record_step_snd]
    by_cases hm : markerPath job.workspace n = markerPath job.workspace m
    · have hnm : n = m := markerPath_inj _ _ _ hm
      subst hnm
      have := readText_writeText_self fs (markerPath job.workspace n) n
      simpa [Job.record_step, hm] using this
    · have hne : markerPath job.workspace m ≠ markerPath job.workspace n :=
        fun he => hm he.symm
      have hns : n ∈ job.steps := by
        rcases List.mem_append.mp hn2 with h1 | h2
        · exact h1
        · exact absurd (by rw [List.mem_singleton.mp h2]) hm
      have hr := readText_writeText_ne fs (markerPath job.workspace n)
        (markerPath job.workspace m) m hne
      calc (fs.writeText (markerPath job.workspace m) m).readText
            (markerPath (job.record_step fs m).1.workspace n)
          = (fs.writeText (markerPath job.workspace m) m).readText
            (markerPath job.workspace n) := by simp [Job.record_step]
        _ = fs.readText (markerPath job.workspace n) := hr
        _ = some n := h n hns

theorem runSteps_readText_notin (names : List String) :
    ∀ (job : Job α) (fs : FS) (p : FsPath),
      (∀ n ∈ names, markerPath job.workspace n ≠ p) →
      (runSteps job fs names).2.readText p = fs.readText p := by
  induction names with
  | nil => intro _ _ _ _; rfl
  | cons m rest ih =>
    intro job fs p h
    rw [runSteps_cons]
    rw [ih _ _ _ (fun n hn => by
      simpa [Job.record_step] using h n (List.mem_cons_of_mem _ hn))]
    rw [record_step_snd]
    exact readText_writeText_ne fs p (markerPath job.workspace m) m
      (h m (List.mem_cons_self _ _))

theorem mkdirList_ok (qs : List FsPath) :
    ∀ (fs fs' : FS), fs.mkdirList qs = .ok fs' →
      fs'.files = fs.files ∧ fs'.allowed = fs.allowed ∧
      ∀ d ∈ fs.dirs, d ∈ fs'.dirs := by
  induction qs with
  | nil =>
    intro fs fs' h
    simp only [FS.mkdirList] at h
    cases h
    exact ⟨rfl, rfl, fun d hd => hd⟩
  | cons q rest ih =>
    intro fs fs' h
    simp only [FS.mkdirList] at h
    by_cases h1 : fs.dirExists q
    · rw [if_pos h1] at h
      exact ih _ _ h
    · rw [if_neg h1] at h
      by_cases h2 : fs.allowed q
      · rw [if_pos h2] at h
        obtain ⟨hf, ha, hd⟩ := ih _ _ h
        exact ⟨hf, ha, fun d hdm => hd d (List.mem_cons_of_mem _ hdm)⟩
      · rw [if_neg h2] at h
        simp at h

theorem mkdir_ok (fs fs' : FS) (p : FsPath) (h : fs.mkdir p = .ok fs') :
    p ∉ fs.dirs ∧ fs'.dirs = p :: fs.dirs ∧ fs'.files = fs.files ∧
    fs'.allowed = fs.allowed ∧ fs.allowed p = true := by
  simp only [FS.mkdir] at h
  by_cases h1 : fs.dirs.contains p
  · rw [if_pos h1] at h; simp at h
  · rw [if_neg h1] at h
    by_cases h2 : !fs.dirExists p.dropLast
    · rw [if_pos h2] at h; simp at h
    · rw [if_neg h2] at h
      by_cases h3 : fs.allowed p
      · rw [if_pos h3] at h
        cases h
        exact ⟨by simpa using h1, rfl, rfl, rfl, h3⟩
      · rw [if_neg h3] at h; simp at h

theorem create_ok (data : α) (b : Option FsPath) (hex : String) (fs : FS)
    (job : Job α) (fs' : FS) (h : Job.create data b hex fs = .ok (job, fs')) :
    job.data = data ∧ job.steps = [] ∧
    job.workspace = (b.getD ["workspaces"]) ++ ["job-" ++ hex] ∧
    job.workspace ∉ fs.dirs ∧ job.workspace ∈ fs'.dirs ∧
    fs'.files = fs.files ∧ fs'.allowed = fs.allowed ∧
    ∀ d ∈ fs.dirs, d ∈ fs'.dirs := by
  simp only [Job.create, bind, Except.bind] at h
  cases hp : fs.mkdirParents (b.getD ["workspaces"]) with
  | error e => rw [hp] at h; simp at h
  | ok fs1 =>
    rw [hp] at h
    simp only at h
    cases hm : fs1.mkdir ((b.getD ["workspaces"]) ++ ["job-" ++ hex]) with
    | error e => rw [hm] at h; simp at h
    | ok fs2 =>
      rw [hm] at h
      simp only [Except.ok.injEq, Prod.mk.injEq] at h
      obtain ⟨hjob, hfs⟩ := h
      subst hjob; subst hfs
      obtain ⟨hf1, ha1, hd1⟩ := mkdirList_ok _ _ _ hp
      obtain ⟨hnm, hdirs, hf2, ha2, _⟩ := mkdir_ok _ _ _ hm
      refine ⟨rfl, rfl, rfl, ?_, ?_, ?_, ?_, ?_⟩
      · exact fun hmem => hnm (hd1 _ hmem)
      · rw [hdirs]; exact List.mem_cons_self _ _
      · rw [hf2, hf1]
      · rw [ha2, ha1]
      · intro d hd
        rw [hdirs]
        exact List.mem_cons_of_mem _ (hd1 d hd)

theorem readText_none_of_fresh_dir (fs : FS) (hwf : fs.WF) (ws : FsPath)
    (hws : ws ∉ fs.dirs) (name : String) :
    fs.readText (markerPath ws name) = none := by
  have : fs.files.find? (fun e => e.1 == markerPath ws name) = none := by
    rw [List.find?_eq_none]
    intro e he hb
    have hp : e.1 = markerPath ws name := by simpa using hb
    have := hwf e he
    rw [hp] at this
    simp only [markerPath, List.dropLast_concat] at this
    exact hws this
  simp [FS.readText, this]

theorem runStages_recording (names : List String) :
    ∀ (job : Job α) (fs : FS),
      runStages (recordingStages names) job fs =
        .ok (runSteps job fs names).1 (runSteps job fs names).2 := by
  induction names with
  | nil => intro job fs; rfl
  | cons n rest ih =>
    intro job fs
    show runStages ((n, recordingStage n) :: recordingStages rest) job fs = _
    simp only [runStages, recordingStage]
    rw [runSteps_cons]
    exact ih _ _

theorem runStages_append (xs ys : List (String × StageProc α)) :
    ∀ (job : Job α) (fs : FS) (j : Job α) (f : FS),
      runStages xs job fs = .ok j f →
      runStages (xs ++ ys) job fs = runStages ys j f := by
  induction xs with
  | nil =>
    intro job fs j f h
    simp only [runStages, RunResult.ok.injEq] at h
    rw [List.nil_append, h.1, h.2]
  | cons s rest ih =>
    intro job fs j f h
    obtain ⟨nm, proc⟩ := s
    simp only [runStages, List.cons_append] at h ⊢
    cases hp : proc job fs with
    | error e => rw [hp] at h; simp at h
    | ok jf =>
      obtain ⟨j', f'⟩ := jf
      rw [hp] at h
      exact ih _ _ _ _ h

theorem readText_congr_files (fs fs' : FS) (h : fs'.files = fs.files)
    (p : FsPath) : fs'.readText p = fs.readText p := by
  simp [FS.readText, h]

theorem getD_mem_drop (l : List String) (i j : Nat) (hij : i ≤ j)
    (hj : j < l.length) : l.getD j "" ∈ l.drop i := by
  have h1 : l.getD j "" = l[j] := by
    simp [List.getD_eq_getElem?_getD, List.getElem?_eq_getElem hj]
  have hlen : j - i < (l.drop i).length := by
    rw [List.length_drop]; omega
  have h2 : (l.drop i)[j - i] = l[i + (j - i)] := List.getElem_drop l
  have h3 : l[i + (j - i)] = l[j] := by congr 1; omega
  rw [h1, ← h3, ← h2]
  exact List.getElem_mem hlen

/-! ## Concrete states used to exercise the theorems -/

/-- An empty filesystem on which every creation is permitted. -/
def demoFS : FS := { dirs := [], files := [], allowed := fun _ => true }

/-- The job `Job.create "data" none "a" demoFS` returns. -/
def demoJob0 : Job String :=
  { data := "data", workspace := ["workspaces", "job-a"], steps := [] }

/-- The filesystem `Job.create "data" none "a" demoFS` returns. -/
def demoFS1 : FS :=
  { dirs := [["workspaces", "job-a"], ["workspaces"]], files := [],
    allowed := fun _ => true }

/-- The job a second creation (hex draw `"b"`) returns. -/
def demoJobB : Job String :=
  { data := "x", workspace := ["workspaces", "job-b"], steps := [] }

/-- The filesystem after the second creation. -/
def demoFS2 : FS :=
  { dirs := [["workspaces", "job-b"], ["workspaces", "job-a"], ["workspaces"]],
    files := [], allowed := fun _ => true }

/-- The final job of a canonical, non-failing pipeline run. -/
def demoJob9 : Job String :=
  { data := "data", workspace := ["workspaces", "job-a"],
    steps := canonicalStageNames }

/-- The filesystem after the canonical run: all nine markers written. -/
def demoFS9 : FS := (runSteps demoJob0 demoFS1 canonicalStageNames).2

/-- A filesystem on which the operating system refuses every creation. -/
def demoDenyFS : FS := { dirs := [], files := [], allowed := fun _ => false }

/-- A dict-shaped job that already carries a `steps` list. -/
def demoDictJob : DictJob String :=
  { data := some "test", steps := some ["intake"], processed_by := none }

/-- A registered agent (the `service-generator` of `coding_agents`). -/
def demoAgent : BaseAgent Nat Nat :=
  { name := "service-generator", execute := fun n => n + 1 }

/-- A registry holding exactly `demoAgent`. -/
def demoRegistry : AgentRegistry Nat Nat :=
  AgentRegistry.register { agents := [] } demoAgent

/-! ## The claims -/

/-- Claim C2: `record_step name` appends `name` as the last element of
`steps` without removing, reordering or deduplicating existing entries
(n calls on a fresh job, repeats included, yield a trace of length n in
call order), and writes one marker file named after `name` into the
workspace whose content is exactly `name`. -/
theorem record_step_appends_and_marks (job : Job α) (fs : FS) (name : String)
    (names : List String) :
    (job.record_step fs name).1.steps = job.steps ++ [name]
    ∧ (job.record_step fs name).2.readText (markerPath job.workspace name) =
        some name
    ∧ (job.steps = [] → (runSteps job fs names).1.steps = names
        ∧ (runSteps job fs names).1.steps.length = names.length) := by
  refine ⟨rfl, ?_, ?_⟩
  · rw [record_step_snd]
    exact readText_writeText_self _ _ _
  · intro h
    rw [runSteps_fst]
    simp [h]

theorem record_step_appends_and_marks_witness :
    (demoJob0.record_step demoFS1 "intake").1.steps = [] ++ ["intake"]
    ∧ (runSteps demoJob0 demoFS1 ["safety", "safety"]).1.steps =
        ["safety", "safety"] :=
  ⟨(record_step_appends_and_marks demoJob0 demoFS1 "intake" []).1,
   ((record_step_appends_and_marks demoJob0 demoFS1 "safety"
      ["safety", "safety"]).2.2 rfl).1⟩

/-- Claim C3: a successful `Job.create payload base_dir` allocates a fresh,
collision-free workspace directory under the base directory (defaulting to
`workspaces`), creates that directory, and returns a new job carrying the
payload with an empty `steps` trace. -/
theorem create_fresh_workspace (data : α) (b : Option FsPath) (hex : String)
    (fs : FS) (job : Job α) (fs' : FS)
    (h : Job.create data b hex fs = .ok (job, fs')) :
    job.data = data ∧ job.steps = []
    ∧ job.workspace = (b.getD ["workspaces"]) ++ ["job-" ++ hex]
    ∧ job.workspace ∉ fs.dirs ∧ job.workspace ∈ fs'.dirs := by
  obtain ⟨h1, h2, h3, h4, h5, _⟩ := create_ok _ _ _ _ _ _ h
  exact ⟨h1, h2, h3, h4, h5⟩

theorem create_fresh_workspace_witness :
    demoJob0.data = "data" ∧ demoJob0.steps = []
    ∧ demoJob0.workspace = ((none : Option FsPath).getD ["workspaces"])
        ++ ["job-" ++ "a"]
    ∧ demoJob0.workspace ∉ demoFS.dirs ∧ demoJob0.workspace ∈ demoFS1.dirs :=
  create_fresh_workspace "data" none "a" demoFS demoJob0 demoFS1 rfl

/-- Claim C7: two separate (successively issued) invocations of the factory
`Job.create`, over any payloads, base directories and uuid draws, never
return jobs with the same workspace identifier. -/
theorem create_workspace_unique (d1 : α) (d2 : β) (b1 b2 : Option FsPath)
    (h1 h2 : String) (fs fs1 fs2 : FS) (j1 : Job α) (j2 : Job β)
    (hc1 : Job.create d1 b1 h1 fs = .ok (j1, fs1))
    (hc2 : Job.create d2 b2 h2 fs1 = .ok (j2, fs2)) :
    j1.workspace ≠ j2.workspace := by
  obtain ⟨_, _, _, _, hin, _, _, _⟩ := create_ok _ _ _ _ _ _ hc1
  obtain ⟨_, _, _, hout, _⟩ := create_ok _ _ _ _ _ _ hc2
  intro he
  rw [he] at hin
  exact hout hin

theorem create_workspace_unique_witness :
    demoJob0.workspace ≠ demoJobB.workspace :=
  create_workspace_unique "data" "x" none none "a" "b" demoFS demoFS1 demoFS2
    demoJob0 demoJobB rfl rfl

/-- Claim C8: each effective `process` of the service modules that define
one (`graph_extract`, `env_synthesis`, `model_selector`, `test-service`),
applied to a job-shaped input carrying a `steps` list, returns a job whose
`steps` equals the input list with the service's own name appended. -/
theorem service_process_appends (job : DictJob α) (l : List String)
    (h : job.steps = some l) :
    (graph_extract.process job).steps = some (l ++ ["graph_extract"])
    ∧ (env_synthesis.process job).steps = some (l ++ ["env_synthesis"])
    ∧ (model_selector.process job).steps = some (l ++ ["model_selector"])
    ∧ (test_service.process job).steps = some (l ++ ["test-service"]) := by
  simp [graph_extract.process, env_synthesis.process, model_selector.process,
    test_service.process, setdefaultAppend, h]

theorem service_process_appends_witness :
    (graph_extract.process demoDictJob).steps =
        some (["intake"] ++ ["graph_extract"])
    ∧ (env_synthesis.process demoDictJob).steps =
        some (["intake"] ++ ["env_synthesis"])
    ∧ (model_selector.process demoDictJob).steps =
        some (["intake"] ++ ["model_selector"])
    ∧ (test_service.process demoDictJob).steps =
        some (["intake"] ++ ["test-service"]) :=
  service_process_appends demoDictJob ["intake"] rfl

/-- Claim C9: executing or looking up an agent name absent from the
registry is reported to the caller as a lookup failure (an error, never
silently ignored); executing a registered name runs the registered agent. -/
theorem execute_agent_lookup (r : AgentRegistry κ ρ) (name : String)
    (kwargs : κ) :
    ((∀ p ∈ r.agents, p.1 ≠ name) →
      r.get_agent name = none
      ∧ r.execute_agent name kwargs = .error ("Agent not found: " ++ name))
    ∧ ∀ a, r.get_agent name = some a →
        r.execute_agent name kwargs = .ok (a.execute kwargs) := by
  constructor
  · intro h
    have hn : r.get_agent name = none := by
      have hf : r.agents.find? (fun p => p.1 == name) = none := by
        rw [List.find?_eq_none]
        intro p hp
        simpa using h p hp
      simp [AgentRegistry.get_agent, hf]
    exact ⟨hn, by simp [AgentRegistry.execute_agent, hn]⟩
  · intro a ha
    simp [AgentRegistry.execute_agent, ha]

theorem execute_agent_lookup_witness :
    (demoRegistry.get_agent "missing" = none
      ∧ demoRegistry.execute_agent "missing" 3 =
          .error ("Agent not found: " ++ "missing"))
    ∧ demoRegistry.execute_agent "service-generator" 3 =
        .ok (demoAgent.execute 3) :=
  ⟨(execute_agent_lookup demoRegistry "missing" 3).1 (by
      intro p hp
      have hp2 : p = ("service-generator", demoAgent) := by
        simpa [demoRegistry, AgentRegistry.register] using hp
      rw [hp2]
      simp),
   (execute_agent_lookup demoRegistry "service-generator" 3).2 demoAgent rfl⟩

/-- Claim C10: `record_step` leaves the job's payload `data` and its
`workspace` path unchanged; `steps` is the only in-memory field of the job
it modifies. -/
theorem record_step_frame (job : Job α) (fs : FS) (name : String) :
    (job.record_step fs name).1.data = job.data
    ∧ (job.record_step fs name).1.workspace = job.workspace
    ∧ (job.record_step fs name).1.steps = job.steps ++ [name] :=
  ⟨rfl, rfl, rfl⟩

/-- Claim C1: for the canonical 9-stage configuration, a `run_pipeline`
invocation that succeeds returns a job whose `steps` trace is exactly
`[intake, classifier, graph_extract, embeddings, env_synthesis, safety,
runner, integrator, registrar]`, in that order, for any payload. -/
theorem run_pipeline_canonical_trace (payload : α) (b : Option FsPath)
    (hex : String) (fs : FS) (job : Job α) (fs' : FS)
    (h : run_pipeline (canonicalStages α) payload b hex fs = .ok job fs') :
    job.steps = canonicalStageNames := by
  unfold run_pipeline at h
  cases hc : Job.create payload b hex fs with
  | error e => rw [hc] at h; simp at h
  | ok jf =>
    obtain ⟨job0, fs0⟩ := jf
    rw [hc] at h
    simp only [canonicalStages] at h
    rw [runStages_recording] at h
    simp only [RunResult.ok.injEq] at h
    obtain ⟨hj, _⟩ := h
    have hsteps : job0.steps = [] := (create_ok _ _ _ _ _ _ hc).2.1
    rw [← hj, runSteps_fst]
    simp [hsteps]

theorem run_pipeline_canonical_trace_witness :
    run_pipeline (canonicalStages String) "data" none "a" demoFS =
        .ok demoJob9 demoFS9
    ∧ demoJob9.steps = canonicalStageNames :=
  ⟨rfl,
   run_pipeline_canonical_trace "data" none "a" demoFS demoJob9 demoFS9 rfl⟩

/-- Claim C4: after `Job.create` and any sequence of `record_step` calls
(repeats included), every name in the job's `steps` trace has a marker
artifact in the job's workspace whose content equals the name exactly. -/
theorem reachable_markers_match (payload : α) (b : Option FsPath)
    (hex : String) (fs : FS) (job0 : Job α) (fs0 : FS)
    (hc : Job.create payload b hex fs = .ok (job0, fs0))
    (names : List String) :
    ∀ n ∈ (runSteps job0 fs0 names).1.steps,
      (runSteps job0 fs0 names).2.readText
        (markerPath (runSteps job0 fs0 names).1.workspace n) = some n := by
  apply runSteps_markers
  intro n hn
  rw [(create_ok _ _ _ _ _ _ hc).2.1] at hn
  simp at hn

theorem reachable_markers_match_witness :
    (runSteps demoJob0 demoFS1 ["intake", "intake"]).2.readText
      (markerPath (runSteps demoJob0 demoFS1 ["intake", "intake"]).1.workspace
        "intake") = some "intake" :=
  reachable_markers_match "data" none "a" demoFS demoJob0 demoFS1 rfl
    ["intake", "intake"] "intake" (by decide)

/-- Claim C5: if the stage at (0-based) position `i` of the canonical
configuration fails on invocation, the runner propagates that error to the
caller unchanged, the job's `steps` at that moment is exactly the first `i`
canonical stage names, and no marker artifact exists for the failing stage
or any later stage. -/
theorem run_pipeline_fail_fast (i : Nat)
    (msg : String) (payload : α) (b : Option FsPath) (hex : String) (fs : FS)
    (hwf : fs.WF) (job0 : Job α) (fs0 : FS)
    (hc : Job.create payload b hex fs = .ok (job0, fs0)) :
    ∃ job fs',
      run_pipeline (stagesFailingAt α i msg) payload b hex fs =
          .stageError msg job fs'
      ∧ job.steps = canonicalStageNames.take i
      ∧ ∀ j, i ≤ j → j < canonicalStageNames.length →
          fs'.readText
            (markerPath job.workspace (canonicalStageNames.getD j "")) =
            none := by
  obtain ⟨_, hsteps, _, hfresh, _, hfiles, _, _⟩ := create_ok _ _ _ _ _ _ hc
  refine ⟨(runSteps job0 fs0 (canonicalStageNames.take i)).1,
    (runSteps job0 fs0 (canonicalStageNames.take i)).2, ?_, ?_, ?_⟩
  · unfold run_pipeline
    rw [hc]
    simp only [stagesFailingAt]
    rw [runStages_append _ _ _ _ _ _ (runStages_recording _ _ _)]
    rfl
  · rw [runSteps_fst]
    simp [hsteps]
  · intro j hij hj
    have hnotin : ∀ n ∈ canonicalStageNames.take i,
        markerPath job0.workspace n ≠
          markerPath job0.workspace (canonicalStageNames.getD j "") := by
      intro n hn heq
      have hnm := markerPath_inj _ _ _ heq
      have hnd : canonicalStageNames.Nodup := by decide
      have hdisj := List.disjoint_take_drop hnd (le_refl i)
      exact hdisj hn (hnm ▸ getD_mem_drop _ i j hij hj)
    have hws : (runSteps job0 fs0 (canonicalStageNames.take i)).1.workspace =
        job0.workspace := by
      rw [runSteps_fst]
    rw [hws, runSteps_readText_notin _ _ _ _ hnotin,
      readText_congr_files fs fs0 hfiles]
    exact readText_none_of_fresh_dir fs hwf _ hfresh _

theorem run_pipeline_fail_fast_witness :
    ∃ job fs',
      run_pipeline (stagesFailingAt String 1 "boom") "data" none "a" demoFS =
          .stageError "boom" job fs'
      ∧ job.steps = canonicalStageNames.take 1
      ∧ ∀ j, 1 ≤ j → j < canonicalStageNames.length →
          fs'.readText
            (markerPath job.workspace (canonicalStageNames.getD j "")) =
            none :=
  run_pipeline_fail_fast 1 "boom" "data" none "a" demoFS
    (fun e he => absurd he (List.not_mem_nil e)) demoJob0 demoFS1 rfl

/-- Claim C6: when the workspace path cannot be created (the operating
system refuses the creation), `Job.create` fails with the workspace-creation
error, the error is surfaced to the `run_pipeline` caller without retrying,
and no stage runs on that job (the run yields no job at all). -/
theorem create_failure_aborts (stages : List (String × StageProc α))
    (payload : α) (b : Option FsPath) (hex : String) (fs : FS) :
    (fs.allowed ((b.getD ["workspaces"]) ++ ["job-" ++ hex]) = false →
      ∃ e, Job.create payload b hex fs = .error e)
    ∧ ∀ e, Job.create payload b hex fs = .error e →
        run_pipeline stages payload b hex fs = .createError e := by
  constructor
  · intro hall
    simp only [Job.create, bind, Except.bind]
    cases hp : fs.mkdirParents (b.getD ["workspaces"]) with
    | error e => exact ⟨e, rfl⟩
    | ok fs1 =>
      cases hm : fs1.mkdir ((b.getD ["workspaces"]) ++ ["job-" ++ hex]) with
      | error e => exact ⟨e, by simp [hm]⟩
      | ok fs2 =>
        exfalso
        have ha1 : fs1.allowed = fs.allowed := (mkdirList_ok _ _ _ hp).2.1
        have := (mkdir_ok _ _ _ hm).2.2.2.2
        rw [ha1, hall] at this
        exact Bool.false_ne_true this
  · intro e he
    simp [run_pipeline, he]

theorem create_failure_aborts_witness :
    (∃ e, Job.create "data" (none : Option FsPath) "a" demoDenyFS = .error e)
    ∧ run_pipeline (canonicalStages String) "data" none "a" demoDenyFS =
        .createError .permissionDenied :=
  ⟨(create_failure_aborts (canonicalStages String) "data" none "a"
      demoDenyFS).1 rfl,
   (create_failure_aborts (canonicalStages String) "data" none "a"
      demoDenyFS).2 .permissionDenied rfl⟩
